import Mathlib

/-!
# Verification of the rrpg audio/rhythm core

A shallow embedding of the timing-critical parts of the rrpg rhythm game:
the Ogg decoder buffering loop and the resampler driver loop
(`src/audio/source.rs`), the audio callback counter updates
(`src/audio/mod.rs`), the interpolated rhythm clock
(`src/rhythm/mod.rs`), and the judgement engine
(`src/rhythm/judgement.rs`, `src/rhythm/note.rs`).

Machine integers are modelled as `Nat`/`Int` with explicit `% 2^w` where the
code can wrap.  Durations are whole nanosecond counts, exactly as Rust's
`Duration`.  `f32` arithmetic (the clock and beat computations use Rust
`f32` throughout) is modelled exactly: every rational value is rounded with
IEEE-754 round-to-nearest-even at binary32 precision after each operation.
All values appearing in this development are in the normal range of
binary32, far away from subnormals and overflow, so the normal-range
rounding function below is the exact IEEE semantics for them.

The file is organised as definitions first, then the theorems.
-/

/-!
## Exact-rational arithmetic kernels

The standard `ℚ` operations in this toolchain are `@[irreducible]`, which
blocks kernel evaluation inside `decide`; the `q*` functions below compute
the same values through `Rat.divInt` and are proved equal to the standard
operations in the theorems section. -/

/-- Multiplication on `ℚ` via `Rat.divInt`. -/
def qmul (a b : ℚ) : ℚ := Rat.divInt (a.num * b.num) ((a.den : ℤ) * (b.den : ℤ))

/-- Addition on `ℚ` via `Rat.divInt`. -/
def qadd (a b : ℚ) : ℚ :=
  Rat.divInt (a.num * (b.den : ℤ) + (a.den : ℤ) * b.num) ((a.den : ℤ) * (b.den : ℤ))

/-- Subtraction on `ℚ` via `Rat.divInt`. -/
def qsub (a b : ℚ) : ℚ :=
  Rat.divInt (a.num * (b.den : ℤ) - (a.den : ℤ) * b.num) ((a.den : ℤ) * (b.den : ℤ))

/-- Division on `ℚ` via `Rat.divInt`. -/
def qdivq (a b : ℚ) : ℚ := Rat.divInt (a.num * (b.den : ℤ)) ((a.den : ℤ) * b.num)

/-- Negation on `ℚ` via `Rat.divInt`. -/
def qneg (a : ℚ) : ℚ := Rat.divInt (-a.num) (a.den : ℤ)

/-!
## Binary32 (`f32`) arithmetic, modelled exactly -/

/-- Round a rational to the nearest integer, ties to even (the IEEE-754
default rounding attitude).  `f` is the floor `⌊x⌋` computed by integer
floor-division; `2*(x - f)` is compared against `1` through the exact
fraction `(x.num - f*x.den)/x.den`. -/
def roundNE (x : ℚ) : ℤ :=
  let f := x.num.fdiv (x.den : ℤ)
  let rnum := x.num - f * (x.den : ℤ)
  if 2 * rnum < (x.den : ℤ) then f
  else if (x.den : ℤ) < 2 * rnum then f + 1
  else if f % 2 = 0 then f else f + 1

/-- `2 ^ e` for an integer exponent, as a rational. -/
def pow2z (e : ℤ) : ℚ :=
  if 0 ≤ e then ((2 ^ e.toNat : ℕ) : ℚ) else mkRat 1 (2 ^ (-e).toNat)

/-- Scale a positive rational into the binary32 mantissa range
`[2^23, 2^24)` by exact doublings/halvings, returning the scaled mantissa
and the base-2 exponent.  Fueled recursion; fuel 300 covers every
magnitude used in this development. -/
def norm32 : ℕ → ℚ × ℤ → ℚ × ℤ
  | 0, p => p
  | fuel+1, (q, e) =>
    if q < (8388608 : ℚ) then norm32 fuel (Rat.divInt (2 * q.num) (q.den : ℤ), e-1)
    else if (16777216 : ℚ) ≤ q then norm32 fuel (Rat.divInt q.num (2 * (q.den : ℤ)), e+1)
    else (q, e)

/-- Binary32 round-to-nearest-even of a positive rational (normal range):
the mantissa scaled into `[2^23, 2^24)` is rounded to the nearest even
integer and scaled back. -/
def f32roundPos (q : ℚ) : ℚ :=
  let p := norm32 300 (q, 0)
  qmul ((roundNE p.1 : ℤ) : ℚ) (pow2z p.2)

/-- Binary32 round-to-nearest-even of an exact rational value (normal
range; every value in this development is far from subnormal/overflow). -/
def f32round (q : ℚ) : ℚ :=
  if q = 0 then 0 else if q < 0 then qneg (f32roundPos (qneg q)) else f32roundPos q

/-- `f32` addition: exact sum, then binary32 rounding. -/
def f32add (a b : ℚ) : ℚ := f32round (qadd a b)

/-- `f32` subtraction: exact difference, then binary32 rounding. -/
def f32sub (a b : ℚ) : ℚ := f32round (qsub a b)

/-- `f32` division: exact quotient, then binary32 rounding. -/
def f32div (a b : ℚ) : ℚ := f32round (qdivq a b)

/-- `f32` multiplication: exact product, then binary32 rounding (used by
Rust `Duration::mul_f32`). -/
def f32mul (a b : ℚ) : ℚ := f32round (qmul a b)

/-- `usize`/`u64` cast to `f32` (round to nearest even). -/
def f32ofNat (n : ℕ) : ℚ := f32round n

/-- Rust `Duration` stores whole nanoseconds; one second of them. -/
def nanosPerSec : ℕ := 1000000000

/-- Rust `Duration::as_secs_f32`:
`(secs as f32) + (subsec_nanos as f32) / (NANOS_PER_SEC as f32)`,
each cast and each arithmetic operation rounded at binary32. -/
def asSecsF32 (ns : ℕ) : ℚ :=
  f32add (f32ofNat (ns / nanosPerSec))
    (f32div (f32ofNat (ns % nanosPerSec)) (f32ofNat nanosPerSec))

/-- Rust `Duration::from_secs_f32` for a non-negative `f32` value: the
duration is the nearest whole number of nanoseconds. -/
def fromSecsF32 (q : ℚ) : ℕ := (roundNE (qmul q ((nanosPerSec : ℕ) : ℚ))).toNat

/-!
## The audio control state (src/audio/mod.rs) -/

/-- `AudioControl`'s per-sample duration in nanoseconds:
`Duration::from_nanos(1_000_000_000 / self.sample_rate as u64)`
(`src/audio/mod.rs`, `AudioControl::position`; the rhythm clock's
`ctl.sample_duration()` is the same quantity). Nat division truncates
exactly as the Rust `u64` division does. -/
def sampleDurationNs (rate : ℕ) : ℕ := nanosPerSec / rate

/-- `AudioControl::position` (src/audio/mod.rs line 71): the per-sample
duration multiplied by `self.timestamp() as u32` — the `u64` consumed-sample
counter truncated to 32 bits. The result is in nanoseconds. -/
def audioControlPositionNs (rate : ℕ) (t : ℕ) : ℕ :=
  sampleDurationNs rate * (t % 2^32)

/-!
## The rhythm clock (src/rhythm/mod.rs) -/

/-- The rhythm clock state: the `Rhythm` context of `src/rhythm/mod.rs`
together with the elapsed time of the containing `Time<Rhythm>` resource
(`elapsed`, advanced through `Time::advance_by`).  All durations are whole
nanoseconds. -/
structure Rhythm where
  bpm : ℕ
  crotchet : ℕ
  offset : ℕ
  timestamp : ℕ
  position : ℕ
  is_interpolating : Bool
  elapsed : ℕ

/-- `Rhythm::new`: `crotchet = Duration::from_nanos(1_000_000_000 * 60 / bpm)`,
everything else zeroed, starting in the raw (non-interpolating) state. -/
def Rhythm.new (bpm offset : ℕ) : Rhythm :=
  { bpm := bpm
    crotchet := 1000000000 * 60 / bpm
    offset := offset
    timestamp := 0
    position := 0
    is_interpolating := false
    elapsed := 0 }

/-- `RhythmExt::beat_number` (src/rhythm/mod.rs lines 282-293):
`(position.as_secs_f32() - offset.as_secs_f32()) / crotchet.as_secs_f32()`,
every operation in `f32`. -/
def beatNumber (r : Rhythm) : ℚ :=
  let elapsed := asSecsF32 r.position
  let timestamp := f32sub elapsed (asSecsF32 r.offset)
  let crochet := asSecsF32 r.crotchet
  f32div timestamp crochet

/-- `RhythmExt::beat_position` (src/rhythm/mod.rs lines 275-280):
`crotchet.mul_f32(beat) + offset` where `Duration::mul_f32(rhs)` is
`Duration::from_secs_f32(rhs * self.as_secs_f32())`.  `beat` is the `f32`
beat number (must be non-negative; the code asserts this). -/
def beatPosition (r : Rhythm) (beat : ℚ) : ℕ :=
  fromSecsF32 (f32mul beat (asSecsF32 r.crotchet)) + r.offset

/-- One logic tick of `interpolate_rhythm_clock` (src/rhythm/mod.rs lines
376-418).  Inputs: the `u64` consumed-sample counter read from the main
track's `AudioControl`, the device sample rate it is converted with, and
`time.delta_seconds()` — the wall-clock frame delta as an `f32` value.
The raw branch copies the device timestamp into `position` (switching to
interpolation once the timestamp first moves); the interpolating branch
advances the previous elapsed time by the wall-clock delta and nudges it
toward the device timestamp by one eighth of the remaining gap, all in
`f32`.  Finally `Time::advance_by` adds any forward movement of
`position` to `elapsed` (`checked_sub` of the previous position). -/
def interpolateRhythmClock (r : Rhythm) (ctlTimestamp rate : ℕ) (delta : ℚ) : Rhythm :=
  let current_time := asSecsF32 r.elapsed
  let last_timestamp := r.timestamp
  let last_position := r.position
  let newTimestamp := sampleDurationNs rate * (ctlTimestamp % 2^32)
  let r1 :=
    if r.is_interpolating then
      let ct1 := f32add current_time delta
      let ct2 := f32add ct1 (f32div (f32sub (asSecsF32 newTimestamp) ct1) 8)
      { r with timestamp := newTimestamp, position := fromSecsF32 ct2 }
    else
      { r with timestamp := newTimestamp
               is_interpolating :=
                 if last_timestamp ≠ newTimestamp then true else r.is_interpolating
               position := newTimestamp }
  if last_position ≤ r1.position then
    { r1 with elapsed := r1.elapsed + (r1.position - last_position) }
  else r1

/-!
## The audio callback (src/audio/mod.rs, `audio_streamer`)

The callback closure owns `source : Option (Resampler<OggDecoder>, Arc<AudioControlState>)`.
Each invocation first drains at most one `(decoder, control-state)` pair
from the channel (resetting that pair's counter to zero and replacing the
active source), then pulls samples from the active source and adds
`mix_len / CHANNEL_COUNT` to the *active* pair's counter.  The model
follows one distinguished ("tracked") control state through a sequence of
invocations; control flow never depends on sample values, so the model
carries sample *counts* (`produced` is the `mix_len` the decoder actually
returned, `0` on error or with no active source; `requested` is the
hardware buffer length `data.len()`). -/

/-- Callback-closure state restricted to the tracked control state:
`active = none` — no source loaded; `active = some b` — a source is loaded
and `b` records whether its control state is the tracked one.  `tracked`
is the tracked control state's consumed-sample counter. -/
structure CallbackState where
  active : Option Bool
  tracked : ℕ

/-- One invocation's environment: `dequeue = some b` if `try_recv`
delivered a newly enqueued pair (`b` = its control state is the tracked
one), the sample count the active source actually produced, and the
requested buffer length. -/
structure CallbackInput where
  dequeue : Option Bool
  produced : ℕ
  requested : ℕ

/-- The channel-drain phase: `actl.timestamp.store(0, Release)` on the
dequeued pair, which becomes the active source. -/
def callbackDequeuePhase (st : CallbackState) (inp : CallbackInput) : CallbackState :=
  match inp.dequeue with
  | some b => { active := some b, tracked := if b then 0 else st.tracked }
  | none => st

/-- One full callback: drain phase, then
`actl.timestamp.fetch_add(mix_len / CHANNEL_COUNT, AcqRel)` on the active
pair's counter (a no-op for the tracked counter when the active pair is
not the tracked one, or when no source is loaded). -/
def callbackStep (channels : ℕ) (st : CallbackState) (inp : CallbackInput) : CallbackState :=
  let st1 := callbackDequeuePhase st inp
  if st1.active = some true
  then { st1 with tracked := st1.tracked + inp.produced / channels }
  else st1

/-- The tracked counter never decreases across the given sequence of
callback invocations (stepwise). -/
def MonotoneRun (channels : ℕ) : CallbackState → List CallbackInput → Prop
  | _, [] => True
  | st, e :: es =>
    st.tracked ≤ (callbackStep channels st e).tracked ∧
    MonotoneRun channels (callbackStep channels st e) es

/-- How many of the invocations dequeue the tracked control state.  A
control state is sent over the channel at most once (`start_spawned_audio`
marks the entity `LoadedAudio`), so a run sees at most one. -/
def trackedDequeues (es : List CallbackInput) : ℕ :=
  es.countP (fun i => decide (i.dequeue = some true))

/-!
## The Ogg decoder (src/audio/source.rs, `OggDecoder`)

The decoder keeps one pending decoded-PCM block (`buffer`) with a read
cursor over a compressed stream.  The stream is modelled as the sequence
of results `read_dec_packet_itl` will deliver: a decoded packet
(`Except.ok`) or a decode error; an exhausted list is end-of-stream
(`Ok(None)` in the code).  Field and function names follow the source. -/


structure OggDecoder (ε : Type) where
  buffer : List ℤ
  buffer_cursor : ℕ
  packets : List (Except ε (List ℤ))

def OggDecoder.remaining {ε : Type} (d : OggDecoder ε) : ℕ :=
  d.buffer.length - d.buffer_cursor

def oggSampleGo {ε : Type} (req : ℕ) (d : OggDecoder ε) : Except ε (List ℤ × OggDecoder ε) :=
  if _hreq : req = 0 then .ok ([], d)
  else if _hrem : 0 < d.remaining then
    let len := min d.remaining req
    let out := (d.buffer.drop d.buffer_cursor).take len
    let d1 : OggDecoder ε :=
      { d with buffer_cursor := d.buffer_cursor + len }
    match oggSampleGo (req - len) d1 with
    | .ok (rest, d2) => .ok (out ++ rest, d2)
    | .error e => .error e
  else
    match hpk : d.packets with
    | [] => .ok ([], d)
    | .ok data :: ps => oggSampleGo req { buffer := data, buffer_cursor := 0, packets := ps }
    | .error e :: _ => .error e
termination_by (d.packets.length, req)
decreasing_by
  · apply Prod.Lex.right
    have h1 : 1 ≤ min d.remaining req := by
      omega
    omega
  · apply Prod.Lex.left
    simp [hpk]

def oggStream {ε : Type} (d : OggDecoder ε) : List ℤ :=
  d.buffer.drop d.buffer_cursor ++ (d.packets.map (fun p => p.toOption.getD [])).flatten

def oggMultiSample {ε : Type} : List ℕ → OggDecoder ε → Except ε (List ℤ × OggDecoder ε)
  | [], d => .ok ([], d)
  | r :: rs, d =>
    match oggSampleGo r d with
    | .ok (out, d1) =>
      match oggMultiSample rs d1 with
      | .ok (rest, d2) => .ok (out ++ rest, d2)
      | .error e => .error e
    | .error e => .error e

/-!
## The resampler (src/audio/source.rs, `Resampler`)

`Resampler<T>` wraps an inner source; with equal rates it is a
passthrough (`state = None`), otherwise it drives a `rubato`
`FftFixedIn` through `next_chunk`.  The inner source and the FFT
primitive are library objects and are abstracted as parameter structures
(`SrcModel`, `FftModel`): everything from the repository itself
(`new_with_chunk_size`, `sample`, `next_chunk`, `consume_buffer`,
`deinterleave_samples`, `interleave_samples`) is translated directly.
The `i16 <-> f32` conversions of the `dasp` library are abstract
parameters; no control flow inspects sample values.  The driver loops are
fuel-indexed: a result `none` at *every* fuel means the Rust loop does
not terminate. -/


inductive ResampleError (ε ρ : Type) where
  | source : ε → ResampleError ε ρ
  | resample : ρ → ResampleError ε ρ
  deriving DecidableEq

structure SrcModel (σ ε : Type) where
  sample_rate : ℕ
  channels : ℕ
  sample : σ → ℕ → Except ε (List ℤ × σ)

structure FftModel (φ ρ : Type) where
  input_frames_next : φ → ℕ
  process_into_buffer : φ → List (List ℚ) → List (List ℚ) → Except ρ (ℕ × ℕ × φ × List (List ℚ))
  process_partial_into_buffer :
    φ → List (List ℚ) → List (List ℚ) → Except ρ (ℕ × ℕ × φ × List (List ℚ))

structure ResamplerState (φ : Type) where
  from_buffer_itl_len : ℕ
  from_buffer : List (List ℚ)
  to_buffer : List (List ℚ)
  to_buffer_rem : ℕ
  fft : φ
  eof : Bool

structure Resampler (σ φ : Type) where
  inner : σ
  «to» : ℕ
  state : Option (ResamplerState φ)

def Resampler.new_with_chunk_size {σ ε φ : Type} (M : SrcModel σ ε)
    (f0 : φ) (toInit : List (List ℚ)) (s : σ) (toRate chunk : ℕ) : Resampler σ φ :=
  { inner := s
    «to» := toRate
    state :=
      if M.sample_rate = toRate then none
      else some
        { from_buffer_itl_len := M.channels * chunk
          from_buffer := List.replicate M.channels []
          to_buffer := toInit
          to_buffer_rem := 0
          fft := f0
          eof := false } }

def rotate_left {α : Type} (l : List α) (n : ℕ) : List α := l.drop n ++ l.take n

def deinterleave_samples (audio_in : List ℤ) (audio_out : List (List ℚ))
    (frame_count : ℕ) (toF32 : ℤ → ℚ) : List (List ℚ) :=
  audio_out.mapIdx (fun i buf =>
    buf ++ (List.range frame_count).map
      (fun k => toF32 (audio_in.getD (k * audio_out.length + i) 0)))

def interleave_samples (audio_in : List (List ℚ)) (len : ℕ) (toI16 : ℚ → ℤ) : List ℤ :=
  (List.range len).map
    (fun i => toI16 ((audio_in.getD (i % audio_in.length) []).getD (i / audio_in.length) 0))

def consume_buffer {φ : Type} (buf_len : ℕ) (toI16 : ℚ → ℤ) (st : ResamplerState φ) :
    List ℤ × ResamplerState φ :=
  let channels := st.to_buffer.length
  let out_len := min st.to_buffer_rem buf_len
  let out_len_frames := out_len / channels
  let out_len_rem := out_len % channels
  let written := interleave_samples st.to_buffer out_len toI16
  let to_buffer2 := st.to_buffer.mapIdx (fun channel_no buffer =>
    if channel_no ≥ out_len_rem then rotate_left buffer out_len_frames
    else rotate_left buffer (out_len_frames + 1))
  (written, { st with to_buffer := to_buffer2, to_buffer_rem := st.to_buffer_rem - out_len })

def fill_loop {σ ε : Type} (M : SrcModel σ ε) (toF32 : ℤ → ℚ) (itl_len requested : ℕ) :
    ℕ → σ → List (List ℚ) → Option (Except ε (σ × List (List ℚ)))
  | 0, _, _ => none
  | fuel+1, s, from_buffer =>
    if (from_buffer.headD []).length < requested then
      match M.sample s itl_len with
      | .error e => some (.error e)
      | .ok (data, s2) =>
        if 0 < data.length then
          fill_loop M toF32 itl_len requested fuel s2
            (deinterleave_samples data from_buffer (data.length / M.channels) toF32)
        else some (.ok (s2, from_buffer))
    else some (.ok (s, from_buffer))

def next_chunk {σ ε φ ρ : Type} (M : SrcModel σ ε) (F : FftModel φ ρ)
    (toF32 : ℤ → ℚ) (toI16 : ℚ → ℤ) (fuel : ℕ) (buf_len : ℕ) (s : σ)
    (st : ResamplerState φ) :
    Option (Except (ResampleError ε ρ) (List ℤ × σ × ResamplerState φ)) :=
  if st.eof then some (.ok ([], s, st))
  else if 0 < st.to_buffer_rem then
    let r := consume_buffer buf_len toI16 st
    some (.ok (r.1, s, r.2))
  else
    let requested_len := F.input_frames_next st.fft
    match fill_loop M toF32 st.from_buffer_itl_len requested_len fuel s st.from_buffer with
    | none => none
    | some (.error e) => some (.error (.source e))
    | some (.ok (s2, fb)) =>
      let have_len := (fb.headD []).length
      match (if requested_len ≤ have_len
             then F.process_into_buffer st.fft fb st.to_buffer
             else F.process_partial_into_buffer st.fft fb st.to_buffer) with
      | .error e => some (.error (.resample e))
      | .ok (in_len, out_len, fft2, tb2) =>
        let st2 : ResamplerState φ :=
          { st with
            from_buffer := fb.map (fun b => b.drop in_len)
            to_buffer := tb2
            fft := fft2
            to_buffer_rem := out_len * M.channels
            eof := if requested_len ≤ have_len then st.eof else true }
        let r := consume_buffer buf_len toI16 st2
        some (.ok (r.1, s2, r.2))

def resampler_sample_conv_loop {σ ε φ ρ : Type} (M : SrcModel σ ε) (F : FftModel φ ρ)
    (toF32 : ℤ → ℚ) (toI16 : ℚ → ℤ) (buf_len : ℕ) :
    ℕ → ℕ → List ℤ → σ → ResamplerState φ →
    Option (Except (ResampleError ε ρ) (List ℤ × ℕ × σ × ResamplerState φ))
  | 0, _, _, _, _ => none
  | fuel+1, buf_cursor, acc, s, st =>
    if buf_cursor < buf_len then
      match next_chunk M F toF32 toI16 fuel (buf_len - buf_cursor) s st with
      | none => none
      | some (.error e) => some (.error e)
      | some (.ok (written, s2, st2)) =>
        resampler_sample_conv_loop M F toF32 toI16 buf_len fuel
          (buf_cursor + written.length) (acc ++ written) s2 st2
    else some (.ok (acc, buf_cursor, s, st))

def resampler_sample {σ ε φ ρ : Type} (M : SrcModel σ ε) (F : FftModel φ ρ)
    (toF32 : ℤ → ℚ) (toI16 : ℚ → ℤ) (fuel : ℕ) (r : Resampler σ φ) (buf_len : ℕ) :
    Option (Except (ResampleError ε ρ) (List ℤ × Resampler σ φ)) :=
  match r.state with
  | some st =>
    match resampler_sample_conv_loop M F toF32 toI16 buf_len fuel 0 [] r.inner st with
    | none => none
    | some (.error e) => some (.error e)
    | some (.ok (out, _, s2, st2)) =>
      some (.ok (out, { r with inner := s2, state := some st2 }))
  | none =>
    match M.sample r.inner buf_len with
    | .error e => some (.error (.source e))
    | .ok (out, s2) => some (.ok (out, { r with inner := s2 }))

def passthroughSrc : SrcModel (List ℤ) Unit :=
  { sample_rate := 48000
    channels := 2
    sample := fun s n => .ok (s.take n, s.drop n) }

def trivFft : FftModel Unit Unit :=
  { input_frames_next := fun _ => 1024
    process_into_buffer := fun f _ b => .ok (0, 0, f, b)
    process_partial_into_buffer := fun f _ b => .ok (0, 0, f, b) }

/-- A mono 44.1 kHz source whose stream is already exhausted: every read
returns zero samples (the decoder at end-of-stream). -/
def emptySrc : SrcModel Unit Unit :=
  { sample_rate := 44100
    channels := 1
    sample := fun s _ => .ok ([], s) }

/-- An FFT model whose flush (partial) step emits two output frames: the
shape `FftFixedIn` exhibits on the final partial block. -/
def flushFft : FftModel Unit Unit :=
  { input_frames_next := fun _ => 4
    process_into_buffer := fun f _ b => .ok (0, 0, f, b)
    process_partial_into_buffer := fun f _ b => .ok (0, 2, f, b) }

/-!
## The judgement engine (src/rhythm/judgement.rs, src/rhythm/note.rs)

`create_judgements` consumes key-edge events against each lane's cursor;
`create_dropped_judgements` sweeps each lane once per tick for notes whose
scheduled position has fallen more than the window behind the clock.
Judgements are identified by the judged note's index in its lane (the
code sends the note `Entity`).  The beat-to-position conversion is the
real `beat_position` (`f32` multiply, rounded to nanoseconds); the sweep
comparison itself is exact `Duration` arithmetic, as in the code. -/

inductive NoteType where
  | note
  | sliderBegin
  | sliderEnd
  deriving DecidableEq

structure RNote where
  beat : ℚ
  kind : NoteType
  deriving DecidableEq

structure Lane where
  notes : List RNote
  current_note : ℕ
  deriving DecidableEq

inductive KeyEventType where
  | down
  | up
  deriving DecidableEq

structure KeyEvent where
  timestamp : ℕ
  kind : KeyEventType
  deriving DecidableEq

structure Judgement where
  note_index : ℕ
  offset : ℚ
  deriving DecidableEq

def create_judgement_on_key (r : Rhythm) (window : ℕ) (lane : Lane) (key : KeyEvent) :
    Option Judgement × Lane :=
  if key.kind ≠ KeyEventType.down then (none, lane)
  else
    match lane.notes.get? lane.current_note with
    | none => (none, lane)
    | some next_note =>
      let note_position := beatPosition r next_note.beat
      let input_position := key.timestamp
      let diff := f32sub (asSecsF32 note_position) (asSecsF32 input_position)
      let window_max := asSecsF32 window
      if |diff| ≤ |window_max| then
        (some ⟨lane.current_note, diff⟩, { lane with current_note := lane.current_note + 1 })
      else (none, lane)

def dropped_condition (r : Rhythm) (window : ℕ) (pos : ℕ) (n : RNote) : Bool :=
  let note_position := beatPosition r n.beat
  if note_position ≤ pos then decide (window < pos - note_position) else false

def create_dropped_judgements_lane (r : Rhythm) (window : ℕ) (pos : ℕ) (lane : Lane) :
    List ℕ × Lane :=
  let rest := lane.notes.drop lane.current_note
  let taken := rest.takeWhile (dropped_condition r window pos)
  (List.range' lane.current_note taken.length,
   { lane with current_note := lane.current_note + taken.length })

inductive RhythmEvent where
  | key (k : KeyEvent)
  | sweep (pos : ℕ)

def judgementStep (r : Rhythm) (window : ℕ) (lane : Lane) : RhythmEvent → List ℕ × Lane
  | .key k =>
    match create_judgement_on_key r window lane k with
    | (some j, lane2) => ([j.note_index], lane2)
    | (none, lane2) => ([], lane2)
  | .sweep pos => create_dropped_judgements_lane r window pos lane

def judgementRun (r : Rhythm) (window : ℕ) : Lane → List RhythmEvent → List ℕ × Lane
  | lane, [] => ([], lane)
  | lane, e :: es =>
    let s := judgementStep r window lane e
    let rest := judgementRun r window s.2 es
    (s.1 ++ rest.1, rest.2)

/-!
## Audio device configuration selection (src/audio/mod.rs, `AudioDevice::init`)

`init` filters the supported output configurations by channel count and
`SampleFormat::I16`, scores each by its distance from the desired default
sample rate, sorts ascending by score and takes the first.  The scoring
`map` contains a slip: in the `desired > max_sample_rate` branch the score
is computed as `min_sample_rate - desired_sample_rate` — the same
expression as the `desired < min` branch — which for `u32` values with
`min < desired` wraps around (release build; a debug build panics on the
overflow).  Wrapping `u32` subtraction is modelled as
`(a + 2^32 - b) % 2^32`.  The sort is by score only (`sort_unstable_by`),
modelled by insertion sort; the counterexample uses distinct scores, on
which every comparison sort agrees. -/


structure SupportedConfig where
  min_sample_rate : ℕ
  max_sample_rate : ℕ
  channels : ℕ
  format_is_i16 : Bool
  deriving DecidableEq

def config_score (desired : ℕ) (c : SupportedConfig) : ℕ × ℕ :=
  if desired < c.min_sample_rate then
    (c.min_sample_rate, c.min_sample_rate - desired)
  else if desired > c.max_sample_rate then
    (c.max_sample_rate, (c.min_sample_rate + 2^32 - desired) % 2^32)
  else (desired, 0)

def insert_by_score (a : ℕ × ℕ) : List (ℕ × ℕ) → List (ℕ × ℕ)
  | [] => [a]
  | b :: l => if a.2 ≤ b.2 then a :: b :: l else b :: insert_by_score a l

def sort_by_score : List (ℕ × ℕ) → List (ℕ × ℕ)
  | [] => []
  | a :: l => insert_by_score a (sort_by_score l)

def select_config (desired channel_count : ℕ) (configs : List SupportedConfig) :
    Option (ℕ × ℕ) :=
  let filtered := (configs.filter (fun c => c.channels == channel_count)).filter
    (fun c => c.format_is_i16)
  let scored := filtered.map (config_score desired)
  (sort_by_score scored).head?

/-!
## Theorems: rational/`f32` bridges -/

theorem qmul_eq (a b : ℚ) : qmul a b = a * b := by
  rw [qmul, ← Rat.divInt_mul_divInt a.num b.num
    (Int.natCast_ne_zero_iff_pos.2 a.pos) (Int.natCast_ne_zero_iff_pos.2 b.pos),
    Rat.num_divInt_den, Rat.num_divInt_den]

theorem qadd_eq (a b : ℚ) : qadd a b = a + b := (Rat.add_num_den a b).symm

theorem qneg_eq (a : ℚ) : qneg a = -a := (Rat.neg_def a).symm

theorem qsub_eq (a b : ℚ) : qsub a b = a - b := by
  have h : qsub a b = qadd a (-b) := by
    rw [qsub, qadd, Rat.neg_num, Rat.neg_den]
    congr 1
    ring
  rw [h, qadd_eq, ← sub_eq_add_neg]

theorem qdivq_eq (a b : ℚ) : qdivq a b = a / b := (Rat.div_def' a b).symm

theorem f32add_eq (a b : ℚ) : f32add a b = f32round (a + b) := by
  rw [f32add, qadd_eq]

theorem f32sub_eq (a b : ℚ) : f32sub a b = f32round (a - b) := by
  rw [f32sub, qsub_eq]

theorem f32div_eq (a b : ℚ) : f32div a b = f32round (a / b) := by
  rw [f32div, qdivq_eq]

theorem f32mul_eq (a b : ℚ) : f32mul a b = f32round (a * b) := by
  rw [f32mul, qmul_eq]

/-!
## Theorems: C10 — `AudioControl::position` drift and wrap -/

/-- C10: the reported duration is `floor(1e9/rate)` nanoseconds times the
consumed-sample counter reduced mod `2^32`; it differs from the exact
`t/rate` seconds whenever `rate` does not divide `1e9`, and it wraps to
zero at `t = 2^32`. -/
theorem audioControlPositionNs_drift_and_wrap
    (r t : ℕ) (hr : 0 < r) (hdvd : ¬ r ∣ nanosPerSec)
    (ht0 : 0 < t) (ht : t < 2^32) :
    audioControlPositionNs r t = (nanosPerSec / r) * t ∧
    (audioControlPositionNs r t : ℚ) / (nanosPerSec : ℚ) ≠ (t : ℚ) / (r : ℚ) ∧
    audioControlPositionNs r (2^32) = 0 := by
  have hmod : t % 2^32 = t := Nat.mod_eq_of_lt ht
  refine ⟨by unfold audioControlPositionNs sampleDurationNs; rw [hmod], ?_, ?_⟩
  · intro h
    have hns : ((nanosPerSec : ℕ) : ℚ) ≠ 0 := by
      simp [nanosPerSec]
    have hrq : ((r : ℕ) : ℚ) ≠ 0 := by
      exact_mod_cast hr.ne'
    rw [audioControlPositionNs, sampleDurationNs, hmod] at h
    field_simp at h
    have hn : (nanosPerSec / r) * t * r = t * nanosPerSec := by
      exact_mod_cast h
    have h1 : t * ((nanosPerSec / r) * r) = t * nanosPerSec := by
      rw [← hn]; ring
    have hcancel : (nanosPerSec / r) * r = nanosPerSec :=
      Nat.eq_of_mul_eq_mul_left ht0 h1
    exact hdvd (Dvd.intro_left (nanosPerSec / r) hcancel)
  · simp [audioControlPositionNs]

/-- C10 witness: the audio device targets 48 kHz, which does not divide
`1e9`; at one consumed sample the reported position is `20833 ns`, not the
exact `1/48000 s`, and the counter wraps at `2^32`. -/
theorem audioControlPositionNs_drift_and_wrap_witness :
    (¬ (48000 : ℕ) ∣ nanosPerSec) ∧
    (audioControlPositionNs 48000 1 = (nanosPerSec / 48000) * 1 ∧
     (audioControlPositionNs 48000 1 : ℚ) / (nanosPerSec : ℚ) ≠ (1 : ℚ) / (48000 : ℚ) ∧
     audioControlPositionNs 48000 (2^32) = 0) :=
  ⟨by decide, audioControlPositionNs_drift_and_wrap 48000 1 (by decide) (by decide)
    (by decide) (by decide)⟩

/-!
## Theorems: C1 — the rhythm clock position vs. the device timestamp -/

/-- Helper: in the raw (non-interpolating) state, one tick of
`interpolate_rhythm_clock` sets `position` to exactly the device-derived
timestamp (per-sample duration times the counter truncated to `u32`). -/
theorem clock_raw_mode (r : Rhythm) (t rate : ℕ) (delta : ℚ)
    (h : r.is_interpolating = false) :
    (interpolateRhythmClock r t rate delta).position = sampleDurationNs rate * (t % 2^32) := by
  unfold interpolateRhythmClock
  split
  · rename_i hcond
    rw [h] at hcond
    exact absurd hcond (by decide)
  · dsimp only
    split <;> rfl

/-- C1, counterexample: the clock is *not* clamped to the device timestamp.
Two ticks from a fresh `Rhythm::new(60, 0)` clock, with the device counter
at 20000 samples of a 20000 Hz stream (device timestamp exactly 1 s,
offset 0): the first tick enters interpolation mode with position 1 s; the
second tick (wall-clock delta 1/64 s, device counter unchanged) computes
position `1013671875 ns > 1000000000 ns` — ahead of the device timestamp
plus offset, refuting "position never exceeds the device timestamp plus
offset". Every `f32` value involved is exactly representable, so the
rounding model is exact here. -/
theorem clock_position_overshoot_counterexample :
    (interpolateRhythmClock
        (interpolateRhythmClock (Rhythm.new 60 0) 20000 20000 (mkRat 1 64))
        20000 20000 (mkRat 1 64)).position = 1013671875 ∧
    1013671875 > audioControlPositionNs 20000 20000 + (Rhythm.new 60 0).offset := by
  constructor
  · decide
  · decide

/-- C1, amended: in raw mode each tick sets `position` to exactly the
device-derived timestamp; in interpolating mode the position advances by
the wall-clock delta plus a one-eighth-gap nudge toward the device
timestamp with **no clamp**, and can exceed the device timestamp plus
offset (concretely: the two-tick run of the counterexample overshoots a
1 s device timestamp by 13.67 ms). -/
theorem clock_raw_tracks_device_and_interpolation_unclamped :
    (∀ (r : Rhythm) (t rate : ℕ) (delta : ℚ), r.is_interpolating = false →
      (interpolateRhythmClock r t rate delta).position = sampleDurationNs rate * (t % 2^32)) ∧
    (interpolateRhythmClock
        (interpolateRhythmClock (Rhythm.new 60 0) 20000 20000 (mkRat 1 64))
        20000 20000 (mkRat 1 64)).position >
      audioControlPositionNs 20000 20000 + (Rhythm.new 60 0).offset :=
  ⟨clock_raw_mode, by decide⟩

/-- C1 witness: the raw-mode clause of the amended theorem applied to a
fresh clock with a 48000-sample counter at 48 kHz: position becomes
exactly `20833 ns * 48000`. -/
theorem clock_raw_tracks_device_witness :
    (interpolateRhythmClock (Rhythm.new 60 0) 48000 48000 0).position = 20833 * 48000 :=
  (clock_raw_tracks_device_and_interpolation_unclamped.1
      (Rhythm.new 60 0) 48000 48000 0 rfl).trans (by decide)

/-!
## Theorems: C9 — beat number at the first beat for BPM 170, offset 570 ms -/

/-- C9, counterexample: with BPM 170 and offset 570 ms, the crotchet stored
by `Rhythm::new` is `352941176 ns` — the nanosecond *truncation* of
`60 s / 170`, not `60 s / 170` itself — and `beat_number()` at position
exactly `offset + crotchet` is **not** `1.0`: the `f32` computation yields
`1 + 2^-23`, one ulp above `1.0`. -/
theorem beatNumber_first_beat_ne_one :
    beatNumber { Rhythm.new 170 570000000 with
        position := (Rhythm.new 170 570000000).offset + (Rhythm.new 170 570000000).crotchet } ≠ 1 ∧
    ((Rhythm.new 170 570000000).crotchet : ℚ) ≠ qmul (qdivq 60 170) ((nanosPerSec : ℕ) : ℚ) := by
  constructor
  · decide
  · decide

/-- C9, amended: `Rhythm::new(170, 570 ms)` stores
`crotchet = floor(60e9/170) = 352941176 ns`, and at position exactly
`offset + crotchet` the `f32` computation
`(position.as_secs_f32() - offset.as_secs_f32()) / crotchet.as_secs_f32()`
returns exactly `8388609/8388608 = 1 + 2^-23` — one binary32 ulp above 1. -/
theorem beatNumber_first_beat_value :
    (Rhythm.new 170 570000000).crotchet = 352941176 ∧
    (Rhythm.new 170 570000000).crotchet = 1000000000 * 60 / 170 ∧
    beatNumber { Rhythm.new 170 570000000 with
        position := (Rhythm.new 170 570000000).offset + (Rhythm.new 170 570000000).crotchet } =
      mkRat 8388609 8388608 := by
  refine ⟨by decide, by decide, by decide⟩

/-!
## Theorems: C4 — the consumed-sample counter across callback invocations -/

/-- Helper: a callback leaves `active` as the drain phase set it. -/
theorem callbackStep_active (channels : ℕ) (st : CallbackState) (e : CallbackInput) :
    (callbackStep channels st e).active = (callbackDequeuePhase st e).active := by
  rw [callbackStep]
  split <;> rfl

/-- Helper: the tracked counter after a callback is the post-drain value
plus `produced / channels` exactly when the active pair is the tracked
one. -/
theorem callbackStep_tracked (channels : ℕ) (st : CallbackState) (e : CallbackInput) :
    (callbackStep channels st e).tracked =
      (callbackDequeuePhase st e).tracked +
        (if (callbackDequeuePhase st e).active = some true then e.produced / channels else 0) := by
  rw [callbackStep]
  split <;> simp_all

/-- Helper: from a state where the tracked control state is fresh (counter
zero, not yet active) and at most one invocation dequeues it, the tracked
counter is non-decreasing at every step of the run. -/
theorem monotoneRun_of_fresh (channels : ℕ) :
    ∀ (es : List CallbackInput) (st : CallbackState),
    ((st.tracked = 0 ∧ st.active ≠ some true ∧ trackedDequeues es ≤ 1) ∨
      trackedDequeues es = 0) →
    MonotoneRun channels st es := by
  intro es
  induction es with
  | nil => intro st _; trivial
  | cons e es ih =>
    intro st h
    have hcount : trackedDequeues (e :: es) =
        trackedDequeues es + (if e.dequeue = some true then 1 else 0) := by
      simp only [trackedDequeues, List.countP_cons, decide_eq_true_eq]
    rcases hd : e.dequeue with _ | b
    · -- no dequeue this callback: the drain phase is the identity
      have hdq : callbackDequeuePhase st e = st := by
        simp [callbackDequeuePhase, hd]
      constructor
      · rw [callbackStep_tracked, hdq]
        exact Nat.le_add_right _ _
      · apply ih
        rcases h with ⟨h0, ha, hc⟩ | hc
        · left
          refine ⟨?_, ?_, ?_⟩
          · rw [callbackStep_tracked, hdq, h0, if_neg ha]
          · rw [callbackStep_active, hdq]
            exact ha
          · rw [hcount, hd] at hc
            simpa using hc
        · right
          rw [hcount, hd] at hc
          simpa using hc
    · cases b with
      | true =>
        -- the tracked control state is dequeued: counter reset, then add
        have h0 : st.tracked = 0 := by
          rcases h with ⟨h0, _, _⟩ | hc
          · exact h0
          · rw [hcount, hd] at hc
            simp at hc
        have hdq : callbackDequeuePhase st e = { active := some true, tracked := 0 } := by
          simp [callbackDequeuePhase, hd]
        constructor
        · rw [callbackStep_tracked, hdq, h0]
          simp
        · apply ih
          right
          rcases h with ⟨_, _, hc⟩ | hc
          · rw [hcount, hd] at hc
            simpa using hc
          · rw [hcount, hd] at hc
            simp at hc
      | false =>
        have hdq : callbackDequeuePhase st e = { active := some false, tracked := st.tracked } := by
          simp [callbackDequeuePhase, hd]
        have hne : (callbackDequeuePhase st e).active ≠ some true := by
          rw [hdq]
          simp
        constructor
        · rw [callbackStep_tracked, if_neg hne, hdq]
          simp
        · apply ih
          rcases h with ⟨h0, _, hc⟩ | hc
          · left
            refine ⟨?_, ?_, ?_⟩
            · rw [callbackStep_tracked, if_neg hne, hdq, h0]
            · rw [callbackStep_active, hdq]
              simp
            · rw [hcount, hd] at hc
              simpa using hc
          · right
            rw [hcount, hd] at hc
            simpa using hc

/-- C4: (i) the callback that dequeues the tracked control state stores
zero into its counter before mixing, and leaves it at exactly
`produced / channels` afterwards; (ii) every callback in which the tracked
pair is active adds exactly `produced / channels` — the frames actually
written by the decoder, a function of `produced` alone, never of the
requested buffer length; (iii) starting from a fresh tracked control
state (counter zero, not yet active, dequeued at most once), the counter
is monotonically non-decreasing across any sequence of callback
invocations. -/
theorem callback_counter_contract (channels : ℕ) :
    (∀ (st : CallbackState) (inp : CallbackInput), inp.dequeue = some true →
      (callbackDequeuePhase st inp).tracked = 0 ∧
      (callbackStep channels st inp).tracked = inp.produced / channels) ∧
    (∀ (st : CallbackState) (inp : CallbackInput),
      (callbackDequeuePhase st inp).active = some true →
      (callbackStep channels st inp).tracked =
        (callbackDequeuePhase st inp).tracked + inp.produced / channels) ∧
    (∀ (es : List CallbackInput) (st : CallbackState),
      st.tracked = 0 → st.active ≠ some true → trackedDequeues es ≤ 1 →
      MonotoneRun channels st es) := by
  refine ⟨?_, ?_, fun es st h0 ha hc => monotoneRun_of_fresh channels es st (Or.inl ⟨h0, ha, hc⟩)⟩
  · intro st inp h
    constructor
    · simp [callbackDequeuePhase, h]
    · simp [callbackStep, callbackDequeuePhase, h]
  · intro st inp h
    simp [callbackStep, h]

/-- C4 witness: two channels; a run that dequeues the tracked control
state in its first callback (producing 512 samples = 256 frames although
1024 were requested), then keeps mixing: the counter passes through 0,
ends the first callback at 256, and the whole run is non-decreasing. -/
theorem callback_counter_contract_witness :
    ((callbackDequeuePhase ⟨none, 0⟩ ⟨some true, 512, 1024⟩).tracked = 0 ∧
      (callbackStep 2 ⟨none, 0⟩ ⟨some true, 512, 1024⟩).tracked = 512 / 2) ∧
    MonotoneRun 2 ⟨none, 0⟩
      [⟨some true, 512, 1024⟩, ⟨none, 1024, 1024⟩, ⟨none, 0, 1024⟩] :=
  ⟨(callback_counter_contract 2).1 ⟨none, 0⟩ ⟨some true, 512, 1024⟩ rfl,
    (callback_counter_contract 2).2.2
      [⟨some true, 512, 1024⟩, ⟨none, 1024, 1024⟩, ⟨none, 0, 1024⟩]
      ⟨none, 0⟩ rfl (by simp) (by decide)⟩

/-!
## Theorems: C5 — Ogg decoder chunking invariance and end-of-stream -/

/-- Helper: on an error-free stream, `sample` returns (as `Ok`) exactly
the next `req` samples of the logical stream and leaves the state holding
the rest; the cursor invariant is preserved. -/
theorem oggSampleGo_spec {ε : Type} (req : ℕ) (d : OggDecoder ε)
    (hok : ∀ p ∈ d.packets, ∃ l, p = .ok l)
    (hcur : d.buffer_cursor ≤ d.buffer.length) :
    ∃ d2, oggSampleGo req d = .ok ((oggStream d).take req, d2) ∧
      oggStream d2 = (oggStream d).drop req ∧
      (∀ p ∈ d2.packets, ∃ l, p = .ok l) ∧
      d2.buffer_cursor ≤ d2.buffer.length := by
  induction req, d using oggSampleGo.induct with
  | case1 d =>
    refine ⟨d, ?_, by simp, hok, hcur⟩
    rw [oggSampleGo]
    simp
  | case2 req d hreq hrem len d1 rest d2 hx ih =>
    have hlen1 : 1 ≤ d.remaining ⊓ req := by
      omega
    have hlenreq : d.remaining ⊓ req ≤ req := min_le_right _ _
    have hcur1 : d.buffer_cursor + d.remaining ⊓ req ≤ d.buffer.length := by
      have := min_le_left d.remaining req
      unfold OggDecoder.remaining at this ⊢
      omega
    obtain ⟨d3, heq, hstream, hok3, hcur3⟩ := ih hok hcur1
    rw [heq] at hx
    injection hx with hx
    injection hx with hx1 hx2
    subst hx2
    have hdl : (d.buffer.drop d.buffer_cursor).length = d.remaining := by
      simp [OggDecoder.remaining]
    have hmin : d.remaining ⊓ req ≤ (d.buffer.drop d.buffer_cursor).length := by
      rw [hdl]
      exact min_le_left _ _
    have hout : (oggStream d).take (d.remaining ⊓ req) =
        (d.buffer.drop d.buffer_cursor).take (d.remaining ⊓ req) := by
      rw [oggStream, List.take_append_of_le_length hmin]
    have hstream1 : oggStream { d with buffer_cursor := d.buffer_cursor + d.remaining ⊓ req } =
        (oggStream d).drop (d.remaining ⊓ req) := by
      rw [oggStream, oggStream, List.drop_append_of_le_length hmin]
      simp [Nat.add_comm, List.drop_drop]
    refine ⟨d3, ?_, ?_, hok3, hcur3⟩
    · rw [oggSampleGo, dif_neg hreq, dif_pos hrem]
      dsimp only
      rw [heq]
      have hkey : (d.buffer.drop d.buffer_cursor).take (d.remaining ⊓ req) ++
          (oggStream { d with buffer_cursor := d.buffer_cursor + d.remaining ⊓ req }).take
            (req - d.remaining ⊓ req) = (oggStream d).take req := by
        rw [hstream1, ← hout, ← List.take_add]
        congr 1
        omega
      exact congrArg (fun l => Except.ok (l, d3)) hkey
    · rw [hstream, hstream1, List.drop_drop]
      congr 1
      omega
  | case3 req d hreq hrem len d1 e hx ih =>
    have hcur1 : d.buffer_cursor + d.remaining ⊓ req ≤ d.buffer.length := by
      have := min_le_left d.remaining req
      unfold OggDecoder.remaining at this ⊢
      omega
    obtain ⟨d3, heq, _⟩ := ih hok hcur1
    rw [heq] at hx
    exact absurd hx (by simp)
  | case4 req d hreq hrem hp =>
    have hnil : d.buffer.drop d.buffer_cursor = [] :=
      List.drop_eq_nil_of_le (by unfold OggDecoder.remaining at hrem; omega)
    have hs : oggStream d = [] := by
      rw [oggStream, hnil, hp]
      simp
    refine ⟨d, ?_, by simp [hs], hok, hcur⟩
    rw [oggSampleGo, dif_neg hreq, dif_neg hrem]
    split
    · simp [hs]
    · rename_i data ps hpk
      rw [hp] at hpk
      exact absurd hpk (by simp)
    · rename_i e tail hpk
      rw [hp] at hpk
      exact absurd hpk (by simp)
  | case5 req d hreq hrem data ps hp ih =>
    have hnil : d.buffer.drop d.buffer_cursor = [] :=
      List.drop_eq_nil_of_le (by unfold OggDecoder.remaining at hrem; omega)
    have hok1 : ∀ p ∈ ps, ∃ l, p = Except.ok l := by
      intro p hmem
      exact hok p (by rw [hp]; exact List.mem_cons_of_mem _ hmem)
    have hsd : oggStream d =
        oggStream { buffer := data, buffer_cursor := 0, packets := ps } := by
      rw [oggStream, oggStream, hnil, hp]
      simp [Except.toOption]
    obtain ⟨d3, heq, hstream, hok3, hcur3⟩ := ih hok1 (by simp)
    refine ⟨d3, ?_, ?_, hok3, hcur3⟩
    · rw [oggSampleGo, dif_neg hreq, dif_neg hrem]
      split
      · rename_i hpk
        rw [hp] at hpk
        exact absurd hpk (by simp)
      · rename_i data2 ps2 hpk
        rw [hp] at hpk
        injection hpk with h1 h2
        injection h1 with h1
        subst h2
        subst h1
        rw [heq, hsd]
      · rename_i e tail hpk
        rw [hp] at hpk
        exact absurd hpk (by simp)
    · rw [hstream, hsd]
  | case6 req d hreq hrem e tail hp =>
    exact absurd (hok _ (by rw [hp]; exact List.mem_cons_self _ _)) (by simp)

/-- Helper: a sequence of `sample` calls with buffer sizes `rs` delivers
exactly the first `rs.sum` samples of the logical stream, concatenated in
order. -/
theorem oggMultiSample_spec {ε : Type} (rs : List ℕ) : ∀ (d : OggDecoder ε),
    (∀ p ∈ d.packets, ∃ l, p = .ok l) → d.buffer_cursor ≤ d.buffer.length →
    ∃ d2, oggMultiSample rs d = .ok ((oggStream d).take rs.sum, d2) ∧
      oggStream d2 = (oggStream d).drop rs.sum ∧
      (∀ p ∈ d2.packets, ∃ l, p = .ok l) ∧ d2.buffer_cursor ≤ d2.buffer.length := by
  induction rs with
  | nil =>
    intro d hok hcur
    exact ⟨d, rfl, by simp, hok, hcur⟩
  | cons r rs ih =>
    intro d hok hcur
    obtain ⟨d1, h1, hs1, hok1, hcur1⟩ := oggSampleGo_spec r d hok hcur
    obtain ⟨d2, h2, hs2, hok2, hcur2⟩ := ih d1 hok1 hcur1
    refine ⟨d2, ?_, ?_, hok2, hcur2⟩
    · rw [oggMultiSample, h1]
      dsimp only
      rw [h2, hs1]
      dsimp only
      rw [← List.take_add]
      simp [List.sum_cons]
    · rw [hs2, hs1, List.drop_drop]
      simp [List.sum_cons, Nat.add_comm]

/-- C5: over an error-free stream, (i) any partition of a large read into
a sequence of `sample()` calls (each buffer a multiple of the channel
count) concatenates to exactly the same samples as (ii) one `sample()`
call with a buffer large enough for the entire stream, both returned as
`Ok`; and (iii) when the stream has no further packet, `sample()` returns
the samples copied so far — possibly zero — as `Ok`, not as an error. -/
theorem ogg_sample_chunking_invariance {ε : Type} (channels : ℕ) (rs : List ℕ)
    (d : OggDecoder ε) (bigN : ℕ)
    (hok : ∀ p ∈ d.packets, ∃ l, p = .ok l)
    (hcur : d.buffer_cursor ≤ d.buffer.length)
    (hmult : ∀ r ∈ rs, channels ∣ r)
    (hsum : (oggStream d).length ≤ rs.sum)
    (hN : (oggStream d).length ≤ bigN) :
    Except.map Prod.fst (oggMultiSample rs d) = .ok (oggStream d) ∧
    Except.map Prod.fst (oggSampleGo bigN d) = .ok (oggStream d) ∧
    (d.packets = [] → ∀ req, Except.map Prod.fst (oggSampleGo req d) =
      .ok ((d.buffer.drop d.buffer_cursor).take req)) := by
  obtain ⟨d2, h2, _⟩ := oggMultiSample_spec rs d hok hcur
  obtain ⟨d3, h3, _⟩ := oggSampleGo_spec bigN d hok hcur
  refine ⟨?_, ?_, ?_⟩
  · rw [h2, List.take_of_length_le hsum]
    rfl
  · rw [h3, List.take_of_length_le hN]
    rfl
  · intro hp req
    obtain ⟨d4, h4, _⟩ := oggSampleGo_spec req d hok hcur
    rw [h4]
    have : oggStream d = d.buffer.drop d.buffer_cursor := by
      rw [oggStream, hp]
      simp
    rw [this]
    rfl

/-- C5 witness: a two-packet stereo stream `[1,2] [3,4]`; reading it as
two 2-sample calls or as one 6-sample call both yield `[1,2,3,4]`. -/
theorem ogg_sample_chunking_invariance_witness :
    oggStream (ε := Unit) ⟨[], 0, [.ok [1, 2], .ok [3, 4]]⟩ = [1, 2, 3, 4] ∧
    Except.map Prod.fst (oggMultiSample [2, 2] (ε := Unit) ⟨[], 0, [.ok [1, 2], .ok [3, 4]]⟩) =
      .ok (oggStream (ε := Unit) ⟨[], 0, [.ok [1, 2], .ok [3, 4]]⟩) ∧
    Except.map Prod.fst (oggSampleGo 6 (ε := Unit) ⟨[], 0, [.ok [1, 2], .ok [3, 4]]⟩) =
      .ok (oggStream (ε := Unit) ⟨[], 0, [.ok [1, 2], .ok [3, 4]]⟩) :=
  have h := ogg_sample_chunking_invariance (ε := Unit) 2 [2, 2]
    ⟨[], 0, [.ok [1, 2], .ok [3, 4]]⟩ 6
    (by
      intro p hp
      simp only [List.mem_cons, List.not_mem_nil, or_false] at hp
      rcases hp with h | h <;> exact ⟨_, h⟩)
    (by simp)
    (by decide)
    (by decide)
    (by decide)
  ⟨rfl, h.1, h.2.1⟩

/-!
## Theorems: C2 and C6 — resampler conversion-mode termination and passthrough -/

/-- Helper: once the end-of-stream flag is set, `next_chunk` returns
`Ok(0)` immediately and leaves every part of the state unchanged (the
check precedes even the leftover-output check). -/
theorem next_chunk_eof {σ ε φ ρ : Type} (M : SrcModel σ ε) (F : FftModel φ ρ)
    (toF32 : ℤ → ℚ) (toI16 : ℚ → ℤ) (fuel buf_len : ℕ) (s : σ)
    (st : ResamplerState φ) (h : st.eof = true) :
    next_chunk M F toF32 toI16 fuel buf_len s st = some (.ok ([], s, st)) := by
  rw [next_chunk, if_pos h]

/-- Helper: with the end-of-stream flag set and a non-empty buffer, the
`while buf_cursor < buf.len()` loop of `Resampler::sample` never makes
progress: for every fuel the loop fails to terminate. -/
theorem conv_loop_eof_diverges {σ ε φ ρ : Type} (M : SrcModel σ ε) (F : FftModel φ ρ)
    (toF32 : ℤ → ℚ) (toI16 : ℚ → ℤ) (buf_len : ℕ) :
    ∀ (fuel buf_cursor : ℕ) (acc : List ℤ) (s : σ) (st : ResamplerState φ),
      st.eof = true → buf_cursor < buf_len →
      resampler_sample_conv_loop M F toF32 toI16 buf_len fuel buf_cursor acc s st = none := by
  intro fuel
  induction fuel with
  | zero =>
    intro buf_cursor acc s st _ _
    rfl
  | succ fuel ih =>
    intro buf_cursor acc s st heof hlt
    rw [resampler_sample_conv_loop, if_pos hlt, next_chunk_eof M F toF32 toI16 fuel _ s st heof]
    dsimp only
    simp only [List.length_nil, Nat.add_zero, List.append_nil]
    exact ih buf_cursor acc s st heof hlt

/-- C2: in conversion mode the code violates the claim, for every inner
source and FFT model.  (i) Once `eof` is set, `next_chunk` returns
`Ok(0)` without touching the state — the check precedes even the
leftover-output drain, so `buf_cursor` can never advance again.
(ii) Hence any `sample` call on a state with `eof` set and a non-empty
buffer spins forever (`none` at every fuel) instead of terminating with
`Ok(0)`.  (iii) Already the call *in which* the flush step is taken never
returns, whenever the flush output does not exactly fill the remaining
buffer: if one loop iteration's `next_chunk` leaves `eof` set and its
samples fall short of the buffer, the loop diverges.  An `eof` state is
thus observable after a normally-returning call only in the exact-fill
case (the witness exhibits such a run), and every later call hangs. -/
theorem resampler_sample_eof_nonterminating {σ ε φ ρ : Type} (M : SrcModel σ ε)
    (F : FftModel φ ρ) (toF32 : ℤ → ℚ) (toI16 : ℚ → ℤ) :
    (∀ (fuel buf_len : ℕ) (s : σ) (st : ResamplerState φ), st.eof = true →
      next_chunk M F toF32 toI16 fuel buf_len s st = some (.ok ([], s, st))) ∧
    (∀ (fuel buf_len t : ℕ) (s : σ) (st : ResamplerState φ), st.eof = true → 0 < buf_len →
      resampler_sample M F toF32 toI16 fuel ⟨s, t, some st⟩ buf_len = none) ∧
    (∀ (fuel buf_len buf_cursor : ℕ) (acc : List ℤ) (s : σ) (st : ResamplerState φ)
        (w : List ℤ) (s2 : σ) (st2 : ResamplerState φ),
      next_chunk M F toF32 toI16 fuel (buf_len - buf_cursor) s st =
        some (.ok (w, s2, st2)) →
      st2.eof = true → buf_cursor + w.length < buf_len →
      resampler_sample_conv_loop M F toF32 toI16 buf_len (fuel+1)
        buf_cursor acc s st = none) := by
  refine ⟨?_, ?_, ?_⟩
  · intro fuel buf_len s st h
    exact next_chunk_eof M F toF32 toI16 fuel buf_len s st h
  · intro fuel buf_len t s st heof hpos
    rw [resampler_sample]
    dsimp only
    rw [conv_loop_eof_diverges M F toF32 toI16 buf_len fuel 0 [] s st heof hpos]
  · intro fuel buf_len buf_cursor acc s st w s2 st2 hnc heof hlt
    have hcur : buf_cursor < buf_len := by omega
    rw [resampler_sample_conv_loop, if_pos hcur, hnc]
    dsimp only
    exact conv_loop_eof_diverges M F toF32 toI16 buf_len fuel
      (buf_cursor + w.length) (acc ++ w) s2 st2 heof hlt

/-- C6: when the inner source's rate equals the target rate,
`new_with_chunk_size` allocates no resampling state (`state = None`, and
conversely state is allocated exactly when the rates differ), the inner
source is stored unchanged, and `sample` forwards to the inner source:
same samples, same return values (with the source error wrapped in
`ResampleError::Source` exactly as `map_err(Into::into)` does), no
samples buffered or delayed, independent of fuel. -/
theorem resampler_passthrough {σ ε φ ρ : Type} (M : SrcModel σ ε) (F : FftModel φ ρ)
    (toF32 : ℤ → ℚ) (toI16 : ℚ → ℤ) :
    (∀ (f0 : φ) (toInit : List (List ℚ)) (s : σ) (toRate chunk : ℕ),
      ((Resampler.new_with_chunk_size M f0 toInit s toRate chunk).state = none ↔
        M.sample_rate = toRate) ∧
      (Resampler.new_with_chunk_size M f0 toInit s toRate chunk).inner = s) ∧
    (∀ (fuel buf_len : ℕ) (r : Resampler σ φ), r.state = none →
      resampler_sample M F toF32 toI16 fuel r buf_len =
        some (match M.sample r.inner buf_len with
              | .ok (out, s2) => .ok (out, { r with inner := s2 })
              | .error e => .error (.source e))) := by
  constructor
  · intro f0 toInit s toRate chunk
    constructor
    · by_cases h : M.sample_rate = toRate <;> simp [Resampler.new_with_chunk_size, h]
    · by_cases h : M.sample_rate = toRate <;> simp [Resampler.new_with_chunk_size, h]
  · intro fuel buf_len r hstate
    rw [resampler_sample, hstate]
    cases h2 : M.sample r.inner buf_len with
    | error e => simp
    | ok p =>
      obtain ⟨out, s2⟩ := p
      simp

/-- C2 witness, a full concrete scenario (mono 44.1 kHz exhausted source
converted to 48 kHz, flush emitting 2 frames): (a) a `sample` call with a
2-sample buffer takes the flush step, happens to fill the buffer exactly,
and returns `Ok([0,0])` with `eof` now set — so the `eof` state is
reachable through a normally-returning call; (b) the subsequent `sample`
call on that returned state diverges (`none` at fuel 9); (c) with a
4-sample buffer the very first end-of-stream call already diverges, since
the 2 flush samples fall short of the buffer; (d) at `eof`, `next_chunk`
returns `Ok` with zero samples and an unchanged state. -/
theorem resampler_sample_eof_nonterminating_witness :
    resampler_sample emptySrc flushFft (fun z => (z : ℚ)) (fun _ => 0) 3
      ⟨(), 48000, some ⟨4, [[]], [[0, 0]], 0, (), false⟩⟩ 2 =
      some (.ok ([0, 0], ⟨(), 48000, some ⟨4, [[]], [[0, 0]], 0, (), true⟩⟩)) ∧
    resampler_sample emptySrc flushFft (fun z => (z : ℚ)) (fun _ => 0) 9
      ⟨(), 48000, some ⟨4, [[]], [[0, 0]], 0, (), true⟩⟩ 2 = none ∧
    resampler_sample_conv_loop emptySrc flushFft (fun z => (z : ℚ)) (fun _ => 0) 4 9
      0 [] () ⟨4, [[]], [[0, 0]], 0, (), false⟩ = none ∧
    next_chunk emptySrc flushFft (fun z => (z : ℚ)) (fun _ => 0) 5 2 ()
      ⟨4, [[]], [[0, 0]], 0, (), true⟩ =
      some (.ok ([], (), ⟨4, [[]], [[0, 0]], 0, (), true⟩)) :=
  ⟨rfl,
   (resampler_sample_eof_nonterminating emptySrc flushFft (fun z => (z : ℚ))
      (fun _ => 0)).2.1 9 2 48000 () ⟨4, [[]], [[0, 0]], 0, (), true⟩ rfl (by decide),
   (resampler_sample_eof_nonterminating emptySrc flushFft (fun z => (z : ℚ))
      (fun _ => 0)).2.2 8 4 0 [] () ⟨4, [[]], [[0, 0]], 0, (), false⟩ [0, 0] ()
      ⟨4, [[]], [[0, 0]], 0, (), true⟩ rfl rfl (by decide),
   (resampler_sample_eof_nonterminating emptySrc flushFft (fun z => (z : ℚ))
      (fun _ => 0)).1 5 2 () ⟨4, [[]], [[0, 0]], 0, (), true⟩ rfl⟩

/-- C6 witness: a 48 kHz list-backed source resampled to 48 kHz:
construction allocates no state, and a 2-sample read returns exactly the
source's first two samples. -/
theorem resampler_passthrough_witness :
    ((Resampler.new_with_chunk_size (φ := Unit) passthroughSrc () [[], []] [5, 6, 7]
        48000 4096).state = none) ∧
    resampler_sample passthroughSrc trivFft (fun z => (z : ℚ)) (fun _ => 0) 1
      { inner := [5, 6, 7], «to» := 48000, state := none } 2 =
      some (.ok ([5, 6], { inner := [7], «to» := 48000, state := none })) :=
  ⟨((resampler_passthrough passthroughSrc trivFft (fun z => (z : ℚ)) (fun _ => 0)).1
      () [[], []] [5, 6, 7] 48000 4096).1.mpr rfl,
   ((resampler_passthrough passthroughSrc trivFft (fun z => (z : ℚ)) (fun _ => 0)).2
      1 2 { inner := [5, 6, 7], «to» := 48000, state := none } rfl).trans rfl⟩

/-!
## Theorems: C3 and C8 — the judgement engine -/

/-- C3, counterexample: `create_judgements` never inspects the note kind
and filters out every non-Down event.  A slider-end note with a key-DOWN
event at its exact scheduled time IS judged (hit emitted, cursor
advanced), although the claim says a mismatched edge is ignored; and a
key-UP event at the exact scheduled time is ignored, although the claim
says a slider-end note is judged by key-up. -/
theorem slider_edge_dispatch_counterexample :
    (create_judgement_on_key (Rhythm.new 60 0) 100000000
        ⟨[⟨1, .sliderEnd⟩], 0⟩ ⟨1000000000, .down⟩ =
      (some ⟨0, 0⟩, ⟨[⟨1, .sliderEnd⟩], 1⟩)) ∧
    (create_judgement_on_key (Rhythm.new 60 0) 100000000
        ⟨[⟨1, .sliderEnd⟩], 0⟩ ⟨1000000000, .up⟩ =
      (none, ⟨[⟨1, .sliderEnd⟩], 0⟩)) := by
  constructor
  · decide
  · decide

/-- C3, amended: every note — ordinary, slider-begin or slider-end — is
judged only by a key-down event; key-up events are ignored for all notes
(no cursor advance, no event); a key-down within the window judges the
next note whatever its kind, with the signed `f32` offset, and advances
the cursor; a key-down outside the window is ignored. -/
theorem create_judgements_down_only (r : Rhythm) (window : ℕ) (lane : Lane) (key : KeyEvent) :
    (key.kind = .up → create_judgement_on_key r window lane key = (none, lane)) ∧
    (∀ n : RNote, key.kind = .down → lane.notes[lane.current_note]? = some n →
      let diff := f32sub (asSecsF32 (beatPosition r n.beat)) (asSecsF32 key.timestamp)
      (|diff| ≤ |asSecsF32 window| →
        create_judgement_on_key r window lane key =
          (some ⟨lane.current_note, diff⟩,
            { lane with current_note := lane.current_note + 1 })) ∧
      (¬ |diff| ≤ |asSecsF32 window| →
        create_judgement_on_key r window lane key = (none, lane))) := by
  constructor
  · intro h
    simp [create_judgement_on_key, h]
  · intro n hdown hget
    constructor
    · intro hw
      simp [create_judgement_on_key, hdown, hget, hw]
    · intro hw
      simp [create_judgement_on_key, hdown, hget, hw]

/-- Helper: for a predicate closed under moving toward the front of the
list, an index lies inside the `takeWhile` prefix exactly when the
predicate holds there. -/
theorem takeWhile_length_iff {α : Type} (p : α → Bool) :
    ∀ (l : List α),
      (∀ (i j : ℕ) (hij : i ≤ j) (hj : j < l.length),
        p (l.get ⟨j, hj⟩) = true → p (l.get ⟨i, lt_of_le_of_lt hij hj⟩) = true) →
      ∀ (j : ℕ) (hj : j < l.length),
        (j < (l.takeWhile p).length ↔ p (l.get ⟨j, hj⟩) = true) := by
  intro l
  induction l with
  | nil =>
    intro _ j hj
    simp at hj
  | cons a l ih =>
    intro hdc j hj
    cases hpa : p a with
    | true =>
      cases j with
      | zero =>
        simp [List.takeWhile_cons, hpa]
      | succ j =>
        have hj2 : j < l.length := by simpa using hj
        have ih2 := ih (fun i j2 hij hj2 hp => by
          have := hdc (i+1) (j2+1) (by omega) (by simpa using hj2) (by simpa using hp)
          simpa using this) j hj2
        simp only [List.takeWhile_cons, hpa, if_true, List.length_cons, Nat.succ_lt_succ_iff]
        simpa using ih2
    | false =>
      have hlen : (List.takeWhile p (a :: l)).length = 0 := by
        simp [List.takeWhile_cons, hpa]
      rw [hlen]
      simp only [Nat.not_lt_zero, false_iff]
      cases j with
      | zero =>
        simpa using hpa
      | succ j =>
        intro hp
        have := hdc 0 (j+1) (by omega) hj hp
        simp [hpa] at this

theorem dropped_condition_iff (r : Rhythm) (w pos : ℕ) (n : RNote) :
    dropped_condition r w pos n = true ↔
      beatPosition r n.beat ≤ pos ∧ w < pos - beatPosition r n.beat := by
  rw [dropped_condition]
  split
  · rename_i h
    simp [h]
  · rename_i h
    simp [h]

theorem dropped_condition_mono (r : Rhythm) (w pos : ℕ) (a b : RNote)
    (hab : beatPosition r a.beat ≤ beatPosition r b.beat)
    (hb : dropped_condition r w pos b = true) :
    dropped_condition r w pos a = true := by
  rw [dropped_condition_iff] at hb ⊢
  obtain ⟨h1, h2⟩ := hb
  exact ⟨le_trans hab h1, lt_of_lt_of_le h2 (Nat.sub_le_sub_left hab pos)⟩

/-- Helper: on a lane sorted by scheduled position, one dropped-note
sweep judges exactly the indices of the too-late prefix from the cursor
onward and advances the cursor past them, leaving the notes unchanged. -/
theorem dropped_sweep_exact (r : Rhythm) (w pos : ℕ) (lane : Lane)
    (hsorted : lane.notes.Pairwise (fun a b => beatPosition r a.beat ≤ beatPosition r b.beat)) :
    (create_dropped_judgements_lane r w pos lane).2.notes = lane.notes ∧
    (create_dropped_judgements_lane r w pos lane).2.current_note =
      lane.current_note +
        ((lane.notes.drop lane.current_note).takeWhile (dropped_condition r w pos)).length ∧
    (create_dropped_judgements_lane r w pos lane).1 =
      List.range' lane.current_note
        ((lane.notes.drop lane.current_note).takeWhile (dropped_condition r w pos)).length ∧
    (∀ (j : ℕ) (hj : j < (lane.notes.drop lane.current_note).length),
      ((lane.current_note + j) ∈ (create_dropped_judgements_lane r w pos lane).1 ↔
        dropped_condition r w pos ((lane.notes.drop lane.current_note).get ⟨j, hj⟩) = true)) := by
  have hsorted2 : (lane.notes.drop lane.current_note).Pairwise
      (fun a b => beatPosition r a.beat ≤ beatPosition r b.beat) :=
    hsorted.sublist (List.drop_sublist _ _)
  have hdc : ∀ (i j : ℕ) (hij : i ≤ j) (hj : j < (lane.notes.drop lane.current_note).length),
      dropped_condition r w pos ((lane.notes.drop lane.current_note).get ⟨j, hj⟩) = true →
      dropped_condition r w pos
        ((lane.notes.drop lane.current_note).get ⟨i, lt_of_le_of_lt hij hj⟩) = true := by
    intro i j hij hj hp
    rcases Nat.lt_or_ge i j with hlt | hge
    · have hle := (List.pairwise_iff_get.mp hsorted2) ⟨i, lt_of_le_of_lt hij hj⟩ ⟨j, hj⟩ hlt
      exact dropped_condition_mono r w pos _ _ hle hp
    · have : i = j := le_antisymm hij hge
      subst this
      exact hp
  refine ⟨rfl, rfl, rfl, ?_⟩
  intro j hj
  rw [create_dropped_judgements_lane]
  dsimp only
  rw [List.mem_range'_1]
  constructor
  · intro ⟨_, hlt⟩
    have hjlt : j < ((lane.notes.drop lane.current_note).takeWhile
        (dropped_condition r w pos)).length := by omega
    exact (takeWhile_length_iff _ _ hdc j hj).mp hjlt
  · intro hp
    have := (takeWhile_length_iff _ _ hdc j hj).mpr hp
    omega

/-- Helper: every judgement step (key event or sweep) judges exactly the
consecutive indices `[cursor, cursor+k)` for some `k` and advances the
cursor by `k`, staying within the lane. -/
theorem judgementStep_shape (r : Rhythm) (w : ℕ) (lane : Lane) (e : RhythmEvent) :
    ∃ k, (judgementStep r w lane e).1 = List.range' lane.current_note k ∧
      (judgementStep r w lane e).2.current_note = lane.current_note + k ∧
      (judgementStep r w lane e).2.notes = lane.notes ∧
      (lane.current_note ≤ lane.notes.length →
        lane.current_note + k ≤ lane.notes.length) := by
  cases e with
  | key k =>
    rw [judgementStep]
    rcases hkind : k.kind with _ | _
    · -- down
      rcases hget : lane.notes[lane.current_note]? with _ | n
      · refine ⟨0, ?_, ?_, ?_, ?_⟩ <;>
          simp [create_judgement_on_key, hkind, hget]
      · by_cases hw : |f32sub (asSecsF32 (beatPosition r n.beat)) (asSecsF32 k.timestamp)| ≤
            |asSecsF32 w|
        · have hlt : lane.current_note < lane.notes.length :=
            List.getElem?_eq_some_iff.mp hget |>.1
          refine ⟨1, ?_, ?_, ?_, fun _ => by omega⟩ <;>
            simp [create_judgement_on_key, hkind, hget, hw, List.range']
        · refine ⟨0, ?_, ?_, ?_, ?_⟩ <;>
            simp [create_judgement_on_key, hkind, hget, hw]
    · -- up
      refine ⟨0, ?_, ?_, ?_, ?_⟩ <;>
        simp [create_judgement_on_key, hkind]
  | sweep pos =>
    refine ⟨((lane.notes.drop lane.current_note).takeWhile (dropped_condition r w pos)).length,
      rfl, rfl, rfl, ?_⟩
    intro hcur
    have : ((lane.notes.drop lane.current_note).takeWhile (dropped_condition r w pos)).length ≤
        (lane.notes.drop lane.current_note).length :=
      (List.takeWhile_sublist _).length_le
    simp only [List.length_drop] at this
    omega

/-- Helper: over any event sequence, the judged indices are exactly
`[cursor₀, cursor₁)` in ascending order — each note judged at most once,
and every index below the final cursor judged exactly once. -/
theorem judgementRun_spec (r : Rhythm) (w : ℕ) :
    ∀ (es : List RhythmEvent) (lane : Lane),
      lane.current_note ≤ lane.notes.length →
      (judgementRun r w lane es).1 =
        List.range' lane.current_note
          ((judgementRun r w lane es).2.current_note - lane.current_note) ∧
      (judgementRun r w lane es).2.notes = lane.notes ∧
      lane.current_note ≤ (judgementRun r w lane es).2.current_note ∧
      (judgementRun r w lane es).2.current_note ≤ lane.notes.length := by
  intro es
  induction es with
  | nil =>
    intro lane hcur
    refine ⟨?_, rfl, le_refl _, hcur⟩
    simp [judgementRun]
  | cons e es ih =>
    intro lane hcur
    obtain ⟨k, hstep1, hstep2, hstep3, hstep4⟩ := judgementStep_shape r w lane e
    have hcur2 : (judgementStep r w lane e).2.current_note ≤
        (judgementStep r w lane e).2.notes.length := by
      rw [hstep2, hstep3]
      exact hstep4 hcur
    obtain ⟨hrun1, hrun2, hrun3, hrun4⟩ := ih (judgementStep r w lane e).2 hcur2
    rw [judgementRun]
    dsimp only
    refine ⟨?_, by rw [hrun2, hstep3], ?_, ?_⟩
    · rw [hstep1, hrun1, hstep2]
      have hle : lane.current_note + k ≤ (judgementRun r w (judgementStep r w lane e).2 es).2.current_note := by
        rw [← hstep2]
        exact hrun3
      have : List.range' lane.current_note k ++
          List.range' (lane.current_note + k)
            ((judgementRun r w (judgementStep r w lane e).2 es).2.current_note -
              (lane.current_note + k)) =
          List.range' lane.current_note
            ((judgementRun r w (judgementStep r w lane e).2 es).2.current_note -
              lane.current_note) := by
        rw [List.range'_append_1]
        congr 1
        omega
      exact this
    · rw [hstep2] at hrun3
      omega
    · rw [hstep3] at hrun4
      exact hrun4

theorem dropped_condition_downward (r : Rhythm) (w pos : ℕ) (l : List RNote)
    (hsorted : l.Pairwise (fun a b => beatPosition r a.beat ≤ beatPosition r b.beat)) :
    ∀ (i j : ℕ) (hij : i ≤ j) (hj : j < l.length),
      dropped_condition r w pos (l.get ⟨j, hj⟩) = true →
      dropped_condition r w pos (l.get ⟨i, lt_of_le_of_lt hij hj⟩) = true := by
  intro i j hij hj hp
  rcases Nat.lt_or_ge i j with hlt | hge
  · have hle := (List.pairwise_iff_get.mp hsorted) ⟨i, lt_of_le_of_lt hij hj⟩ ⟨j, hj⟩ hlt
    exact dropped_condition_mono r w pos _ _ hle hp
  · have heq : i = j := le_antisymm hij hge
    subst heq
    exact hp

/-- C8: (i) on a sorted lane a sweep judges exactly the notes from the
cursor forward whose scheduled position is more than `window` behind the
clock (`checked_sub` semantics); (ii) the cursor advances past exactly
the judged notes; (iii) over any sequence of key events and sweeps the
judged indices form the ascending run `[cursor₀, cursor_final)` — no note
judged twice, every note below the final cursor judged exactly once, in
scheduled-beat order; (iv) after a sweep every remaining note is not yet
too late (so each note eventually gets exactly one judgement — hit or
miss — once the clock passes it). -/
theorem judgement_exactly_once (r : Rhythm) (w : ℕ) :
    (∀ (pos : ℕ) (lane : Lane),
      lane.notes.Pairwise (fun a b => beatPosition r a.beat ≤ beatPosition r b.beat) →
      ∀ (j : ℕ) (hj : j < (lane.notes.drop lane.current_note).length),
        ((lane.current_note + j) ∈ (create_dropped_judgements_lane r w pos lane).1 ↔
          (beatPosition r ((lane.notes.drop lane.current_note).get ⟨j, hj⟩).beat ≤ pos ∧
            w < pos - beatPosition r ((lane.notes.drop lane.current_note).get ⟨j, hj⟩).beat))) ∧
    (∀ (pos : ℕ) (lane : Lane),
      (create_dropped_judgements_lane r w pos lane).2.current_note =
        lane.current_note + (create_dropped_judgements_lane r w pos lane).1.length) ∧
    (∀ (es : List RhythmEvent) (lane : Lane),
      lane.current_note ≤ lane.notes.length →
      (judgementRun r w lane es).1 =
        List.range' lane.current_note
          ((judgementRun r w lane es).2.current_note - lane.current_note) ∧
      lane.current_note ≤ (judgementRun r w lane es).2.current_note ∧
      (judgementRun r w lane es).2.current_note ≤ lane.notes.length) ∧
    (∀ (pos : ℕ) (lane : Lane),
      lane.notes.Pairwise (fun a b => beatPosition r a.beat ≤ beatPosition r b.beat) →
      ∀ (j : ℕ) (hj : j < lane.notes.length),
        (create_dropped_judgements_lane r w pos lane).2.current_note ≤ j →
        dropped_condition r w pos (lane.notes.get ⟨j, hj⟩) = false) := by
  refine ⟨?_, ?_, ?_, ?_⟩
  · intro pos lane hsorted j hj
    have h := (dropped_sweep_exact r w pos lane hsorted).2.2.2 j hj
    rw [h, dropped_condition_iff]
  · intro pos lane
    simp [create_dropped_judgements_lane, List.length_range']
  · intro es lane hcur
    obtain ⟨h1, _, h3, h4⟩ := judgementRun_spec r w es lane hcur
    exact ⟨h1, h3, h4⟩
  · intro pos lane hsorted j hj hge
    have hk := (dropped_sweep_exact r w pos lane hsorted).2.1
    have hcur : lane.current_note ≤ j := by omega
    have hj2 : j - lane.current_note < (lane.notes.drop lane.current_note).length := by
      simp only [List.length_drop]
      omega
    by_contra hcond
    rw [Bool.not_eq_false] at hcond
    have hget : (lane.notes.drop lane.current_note).get ⟨j - lane.current_note, hj2⟩ =
        lane.notes.get ⟨j, hj⟩ := by
      have h3 : lane.current_note + (j - lane.current_note) = j := by omega
      simp [List.get_eq_getElem, List.getElem_drop', h3]
    have hsorted2 : (lane.notes.drop lane.current_note).Pairwise
        (fun a b => beatPosition r a.beat ≤ beatPosition r b.beat) :=
      hsorted.sublist (List.drop_sublist _ _)
    have hlt := (takeWhile_length_iff (dropped_condition r w pos) _
      (dropped_condition_downward r w pos _ hsorted2) (j - lane.current_note) hj2).mpr
      (by rw [hget]; exact hcond)
    omega

/-- C3 witness: the amended theorem applied concretely: a key-up at the
exact scheduled time is a no-op, a key-down at the exact scheduled time
judges with offset 0 and advances the cursor. -/
theorem create_judgements_down_only_witness :
    (create_judgement_on_key (Rhythm.new 60 0) 100000000
        ⟨[⟨1, .note⟩], 0⟩ ⟨1000000000, .up⟩ = (none, ⟨[⟨1, .note⟩], 0⟩)) ∧
    (create_judgement_on_key (Rhythm.new 60 0) 100000000
        ⟨[⟨1, .note⟩], 0⟩ ⟨1000000000, .down⟩ =
      (some ⟨0, f32sub (asSecsF32 (beatPosition (Rhythm.new 60 0) 1))
          (asSecsF32 1000000000)⟩,
        ⟨[⟨1, .note⟩], 1⟩)) :=
  ⟨(create_judgements_down_only (Rhythm.new 60 0) 100000000
      ⟨[⟨1, .note⟩], 0⟩ ⟨1000000000, .up⟩).1 rfl,
   ((create_judgements_down_only (Rhythm.new 60 0) 100000000
      ⟨[⟨1, .note⟩], 0⟩ ⟨1000000000, .down⟩).2 ⟨1, .note⟩ rfl rfl).1 (by decide)⟩

set_option maxHeartbeats 2000000 in
/-- C8 witness: lane with beats 1, 2, 3 at 60 BPM and a 100 ms window; a
key-down at beat 1's time then a sweep at 2.2 s judge exactly notes 0 and
1 in order, and the membership characterisation holds for note 1. -/
theorem judgement_exactly_once_witness :
    ((judgementRun (Rhythm.new 60 0) 100000000
        ⟨[⟨1, .note⟩, ⟨2, .note⟩, ⟨3, .note⟩], 0⟩
        [.key ⟨1000000000, .down⟩, .sweep 2200000000]).1 =
      List.range' 0
        ((judgementRun (Rhythm.new 60 0) 100000000
            ⟨[⟨1, .note⟩, ⟨2, .note⟩, ⟨3, .note⟩], 0⟩
            [.key ⟨1000000000, .down⟩, .sweep 2200000000]).2.current_note - 0)) ∧
    ((judgementRun (Rhythm.new 60 0) 100000000
        ⟨[⟨1, .note⟩, ⟨2, .note⟩, ⟨3, .note⟩], 0⟩
        [.key ⟨1000000000, .down⟩, .sweep 2200000000]).1 = [0, 1]) ∧
    ((1 + 0 ∈ (create_dropped_judgements_lane (Rhythm.new 60 0) 100000000 2200000000
        ⟨[⟨1, .note⟩, ⟨2, .note⟩, ⟨3, .note⟩], 1⟩).1 ↔
      (beatPosition (Rhythm.new 60 0)
          ((([⟨1, .note⟩, ⟨2, .note⟩, ⟨3, .note⟩] : List RNote).drop 1).get ⟨0, by decide⟩).beat ≤
            2200000000 ∧
        100000000 < 2200000000 - beatPosition (Rhythm.new 60 0)
          ((([⟨1, .note⟩, ⟨2, .note⟩, ⟨3, .note⟩] : List RNote).drop 1).get ⟨0, by decide⟩).beat))) :=
  ⟨((judgement_exactly_once (Rhythm.new 60 0) 100000000).2.2.1
      [.key ⟨1000000000, .down⟩, .sweep 2200000000]
      ⟨[⟨1, .note⟩, ⟨2, .note⟩, ⟨3, .note⟩], 0⟩ (by decide)).1,
   by decide,
   (judgement_exactly_once (Rhythm.new 60 0) 100000000).1 2200000000
      ⟨[⟨1, .note⟩, ⟨2, .note⟩, ⟨3, .note⟩], 1⟩ (by decide) 0 (by decide)⟩

/-!
## Theorems: C7 — output-configuration scoring -/

/-- C7: the claimed absolute-distance scoring is violated.  With the
desired rate 48 kHz, a stereo i16 configuration supporting 8-44.1 kHz
should score `48000 - 44100 = 3900` (nearest rate 44.1 kHz) but the code
scores it `(8000 - 48000) mod 2^32 = 4294927296`; a 96 kHz-only
configuration scores `48000`.  The selection therefore picks the 96 kHz
configuration although 44.1 kHz is strictly nearer to the desired rate. -/
theorem config_selection_wrapped_score :
    config_score 48000 ⟨8000, 44100, 2, true⟩ = (44100, 4294927296) ∧
    4294927296 ≠ 48000 - 44100 ∧
    config_score 48000 ⟨96000, 96000, 2, true⟩ = (96000, 48000) ∧
    48000 - 44100 < 48000 ∧
    select_config 48000 2 [⟨8000, 44100, 2, true⟩, ⟨96000, 96000, 2, true⟩] =
      some (96000, 48000) := by
  refine ⟨by decide, by decide, by decide, by decide, by decide⟩
